import Mathlib

/-!
# Verification of the kvcache repository against its specification

The repository's only source file is `src/main.cpp`: a Seastar process
bootstrap that starts the multi-core runtime and logs the core count.
The specification additionally describes the shard-per-core in-memory
key-value cache core that this bootstrap is the seed of; those components
(shard store, router, wire frame) are absent from the sources and are
modelled here directly from the specification's words, each such
definition marked `Modelled from the spec:`.

Machine integers are modelled as `Nat` with explicit `% 2 ^ w` where
wrap-around matters; fallible operations return `Option`.
-/

namespace Kvcache

/-! ## Model of `src/main.cpp` and the Seastar runtime contract

```cpp
int main(int argc, char** argv) {
    seastar::app_template app;
    app.run(argc, argv, [] {
            std::cout << "kvcache: online with " << seastar::smp::count << " threads.\n";
            return seastar::make_ready_future<>();
    });
}
```

`seastar::app_template::run` starts the reactor threads, runs the supplied
callback, drains, and *returns* an `int` exit status: `0` on graceful
shutdown, non-zero when startup fails (e.g. it cannot allocate the
configured number of cores).  In `main.cpp` that returned status is
discarded and `main` falls off its end, which in C++ makes `main` return
`0` unconditionally. -/

/-- The runtime environment visible to the application callback:
`seastar::smp::count`, the number of reactor threads. -/
structure Runtime where
  smpCount : Nat
deriving DecidableEq, Repr

/-- A Seastar future over `Unit`, as far as this program exercises it:
either already resolved (`seastar::make_ready_future<>()`) or suspended
awaiting the reactor. -/
inductive FutureU where
  | ready
  | suspended
deriving DecidableEq, Repr

/-- The lambda passed to `app.run` in `src/main.cpp`, lines 8–11:
it writes one line `"kvcache: online with N threads."` to stdout where
`N = seastar::smp::count`, and returns a ready future.  The first
component lists the stdout lines it writes, in order. -/
def appBody (rt : Runtime) : List String × FutureU :=
  (["kvcache: online with " ++ toString rt.smpCount ++ " threads."], FutureU.ready)

/-- Outcome of Seastar runtime startup: success hands the callback the
running runtime; failure (cores or fabric resources unavailable) never
runs the callback. -/
inductive StartupOutcome where
  | success (rt : Runtime)
  | failure
deriving DecidableEq, Repr

/-- Contract of `seastar::app_template::run` (external library, modelled
from its documented behaviour, which the spec restates): on successful
startup it runs the callback and returns exit status `0` after graceful
drain; on startup failure it runs nothing and returns a non-zero status
(Seastar returns `1`).  Result: `(returned status, stdout lines)`. -/
def app_run (outcome : StartupOutcome)
    (body : Runtime → List String × FutureU) : Nat × List String :=
  match outcome with
  | StartupOutcome.success rt => (0, (body rt).1)
  | StartupOutcome.failure => (1, [])

/-- `main` from `src/main.cpp`, lines 6–12: calls `app.run(argc, argv, λ)`
and discards its returned status; control falls off the end of `main`,
so the process exit code is the implicit `return 0`.
Result: `(process exit code, stdout lines)`. -/
def main_model (outcome : StartupOutcome) : Nat × List String :=
  let r := app_run outcome appBody
  (0, r.2)

/-! ## Shard / Cache Store

Modelled from the spec: no cache code exists under `src/`; §3 and §4.2 of
the specification define the per-shard store.  The recency list is kept
most-recently-used first, least-recently-used last.  `memory_used` is the
number of bytes held in cached values; the budget bounds it. -/

/-- Modelled from the spec: a cache entry `{key, value, size_bytes,
recency marker, shard id}`.  Recency is positional in the shard's list
and the shard id is the list's owner, so neither is stored here; the
tracked byte size is `value.length`.  `ttl = 0` means no expiry. -/
structure CacheEntry where
  key : List Nat
  value : List Nat
  ttl : Nat
deriving DecidableEq, Repr

/-- Modelled from the spec: one shard's state — the recency-ordered entry
list (MRU first, LRU last) and the shard's byte budget for cached
values. -/
structure Shard where
  entries : List CacheEntry
  budget : Nat
deriving DecidableEq, Repr

/-- Bytes of cached values held by a list of entries (`memory_used`). -/
def memUsed (es : List CacheEntry) : Nat :=
  (es.map fun e => e.value.length).sum

/-- Modelled from the spec: response statuses of §7. -/
inductive Status where
  | Ok
  | NotFound
  | ValueTooLarge
  | Timeout
  | Overloaded
  | MalformedRequest
deriving DecidableEq, Repr

/-- Look up the entry for a key in a recency list. -/
def findEntry (k : List Nat) (es : List CacheEntry) : Option CacheEntry :=
  es.find? fun e => decide (e.key = k)

/-- Remove every entry with the given key from a recency list. -/
def removeKey (k : List Nat) (es : List CacheEntry) : List CacheEntry :=
  es.filter fun e => decide (e.key ≠ k)

/-- Modelled from the spec: `handle_get(key) → value | NotFound`.  On hit
it moves the entry to the most-recent position and returns a copy of the
value; on miss it leaves the shard untouched. -/
def handle_get (s : Shard) (k : List Nat) : Option (List Nat) × Shard :=
  match findEntry k s.entries with
  | none => (none, s)
  | some e => (some e.value, { s with entries := e :: removeKey k s.entries })

/-- One step of the spec's eviction loop, driven by fuel: while
`memory_used > memory_budget`, drop the least-recently-used (last)
entry.  Fuel equal to the list length always suffices, since each step
shortens the list and the empty list uses no memory. -/
def evictLoop (budget : Nat) : Nat → List CacheEntry → List CacheEntry
  | 0, es => es
  | fuel + 1, es =>
    if memUsed es ≤ budget then es else evictLoop budget fuel es.dropLast

/-- Modelled from the spec: `handle_put(key, value, ttl) → Ok`.  A value
alone exceeding the budget is rejected with `ValueTooLarge`.  Otherwise
an existing entry is updated and moved to the most-recent position (or a
new entry inserted there), and the LRU entry is evicted repeatedly while
`memory_used > memory_budget`. -/
def handle_put (s : Shard) (k v : List Nat) (ttl : Nat) : Status × Shard :=
  if s.budget < v.length then (Status.ValueTooLarge, s)
  else
    let es := { key := k, value := v, ttl := ttl } :: removeKey k s.entries
    (Status.Ok, { s with entries := evictLoop s.budget es.length es })

/-- Modelled from the spec: `handle_delete(key) → Ok | NotFound`.
Deleting an absent key is not an error. -/
def handle_delete (s : Shard) (k : List Nat) : Status × Shard :=
  if (findEntry k s.entries).isSome then
    (Status.Ok, { s with entries := removeKey k s.entries })
  else (Status.NotFound, s)

/-! ## Key-to-shard routing

Modelled from the spec: `shard_id = stable_hash(key) mod shard_count`,
fixed for the process lifetime.  The hash is a deterministic function of
the key bytes alone (64-bit FNV-1a, with wrap-around made explicit). -/

/-- Modelled from the spec: `stable_hash`, a deterministic hash of the
key's bytes.  Concretely 64-bit FNV-1a; arithmetic wraps modulo
`2 ^ 64`. -/
def stable_hash (k : List Nat) : Nat :=
  k.foldl (fun h b => (h ^^^ b % 256) * 1099511628211 % 2 ^ 64)
    14695981039346656037

/-- Modelled from the spec: the bootstrap configuration threaded into the
router — the shard (core) count, fixed at startup for the process
lifetime. -/
structure Config where
  shardCount : Nat
deriving DecidableEq, Repr

/-- Modelled from the spec: the router's shard computation for one call.
`t` is the call's position in the run (time); the result depends only on
the key and the static configuration, never on `t`, because
`stable_hash` reads nothing but the key's bytes. -/
def routeAt (cfg : Config) (k : List Nat) (_t : Nat) : Nat :=
  stable_hash k % cfg.shardCount

/-! ## Wire frame

Modelled from the spec, §6: a `Request` travels as
`[opcode:1 byte][key_len:2 bytes][key bytes][value_len:4 bytes]`
`[value bytes (PUT only)][ttl:4 bytes, 0 = no expiry]`.
Multi-byte integers are big-endian here (the spec fixes no byte order). -/

/-- Modelled from the spec: the closed operation set. -/
inductive Opcode where
  | GET
  | PUT
  | DELETE
deriving DecidableEq, Repr

/-- Wire byte of an opcode. -/
def opcodeByte : Opcode → Nat
  | Opcode.GET => 0
  | Opcode.PUT => 1
  | Opcode.DELETE => 2

/-- Opcode of a wire byte, when valid. -/
def byteOpcode : Nat → Option Opcode
  | 0 => some Opcode.GET
  | 1 => some Opcode.PUT
  | 2 => some Opcode.DELETE
  | _ => none

/-- Modelled from the spec: a parsed `Request`
`{op, key, value (PUT only), ttl}`.  For non-PUT operations the value is
empty.  (The correlation id and deadline live in the router layer, not
in the frame.) -/
structure Request where
  op : Opcode
  key : List Nat
  value : List Nat
  ttl : Nat
deriving DecidableEq, Repr

/-- Big-endian 2-byte encoding of `n` (taken modulo `2 ^ 16`). -/
def be16 (n : Nat) : List Nat :=
  [n / 256 % 256, n % 256]

/-- Big-endian 4-byte encoding of `n` (taken modulo `2 ^ 32`). -/
def be32 (n : Nat) : List Nat :=
  [n / 16777216 % 256, n / 65536 % 256, n / 256 % 256, n % 256]

/-- Modelled from the spec: encode a `Request` into the fixed binary
frame.  The value bytes appear only for PUT. -/
def encodeRequest (r : Request) : List Nat :=
  opcodeByte r.op :: (be16 r.key.length ++ r.key ++ be32 r.value.length
    ++ (if r.op = Opcode.PUT then r.value else []) ++ be32 r.ttl)

/-- Read `n` bytes from the stream; fails if fewer remain. -/
def readBytes (n : Nat) (bs : List Nat) : Option (List Nat × List Nat) :=
  if n ≤ bs.length then some (bs.take n, bs.drop n) else none

/-- Read a big-endian 2-byte integer. -/
def readBE16 (bs : List Nat) : Option (Nat × List Nat) :=
  match bs with
  | b1 :: b0 :: rest => some (b1 * 256 + b0, rest)
  | _ => none

/-- Read a big-endian 4-byte integer. -/
def readBE32 (bs : List Nat) : Option (Nat × List Nat) :=
  match bs with
  | b3 :: b2 :: b1 :: b0 :: rest =>
    some (b3 * 16777216 + b2 * 65536 + b1 * 256 + b0, rest)
  | _ => none

/-- Modelled from the spec: decode one wire frame back into a `Request`;
`none` corresponds to `MalformedRequest` (bad opcode, truncation, or
trailing garbage). -/
def decodeRequest (bs : List Nat) : Option Request :=
  match bs with
  | [] => none
  | opb :: rest =>
    (byteOpcode opb).bind fun op =>
    (readBE16 rest).bind fun p1 =>
    (readBytes p1.1 p1.2).bind fun pk =>
    (readBE32 pk.2).bind fun pv =>
    (readBytes (if op = Opcode.PUT then pv.1 else 0) pv.2).bind fun pval =>
    (readBE32 pval.2).bind fun pt =>
    match pt.2 with
    | [] => some { op := op, key := pk.1, value := pval.1, ttl := pt.1 }
    | _ :: _ => none

/-! ## Request Router: pending calls, timeout, late responses

Modelled from the spec, §4.1 and §5: a cross-core request registers a
`PendingCall {correlation_id, deadline, slot}`; on deadline elapse the
future resolves with `Timeout` and the `PendingCall` is removed before
completion, so a later-arriving response with that correlation id finds
no pending call and is discarded.  The router's observable state is the
set of pending calls and the record of resolutions delivered to callers
(each future's single resolution). -/

/-- Modelled from the spec: the router's per-core observable state —
the pending calls `(correlation_id, deadline)` and, for each resolved
future, its recorded resolution `(correlation_id, status)`. -/
structure RouterState where
  pending : List (Nat × Nat)
  resolved : List (Nat × Status)
deriving DecidableEq, Repr

/-- Modelled from the spec: events the router reacts to — submitting a
cross-core request (fresh correlation id, its deadline), a response
envelope arriving from the fabric, and the clock reaching `now` (the
deadline check). -/
inductive REvent where
  | submit (cid deadline : Nat)
  | deliver (cid : Nat) (st : Status)
  | elapse (now : Nat)
deriving DecidableEq, Repr

/-- Modelled from the spec: one router transition.  `submit` registers a
pending call; `deliver` resolves the matching pending call and is
discarded when none matches; `elapse now` resolves every pending call
whose deadline has passed with `Timeout`, removing it. -/
def rstep (s : RouterState) : REvent → RouterState
  | REvent.submit cid d => { s with pending := (cid, d) :: s.pending }
  | REvent.deliver cid st =>
    if cid ∈ s.pending.map Prod.fst then
      { pending := s.pending.filter fun p => decide (p.1 ≠ cid),
        resolved := (cid, st) :: s.resolved }
    else s
  | REvent.elapse now =>
    { pending := s.pending.filter fun p => decide (now < p.2),
      resolved :=
        ((s.pending.filter fun p => decide (p.2 ≤ now)).map
          fun p => (p.1, Status.Timeout)) ++ s.resolved }

/-- Run the router over a list of events. -/
def rrun (s : RouterState) (es : List REvent) : RouterState :=
  es.foldl rstep s

/-- The initial router state: nothing pending, nothing resolved. -/
def rinit : RouterState := { pending := [], resolved := [] }

/-- A trace is well-formed when every submitted correlation id is fresh:
not pending and not yet resolved at the point of submission (spec
invariant 4: a correlation id is reused only after resolution or
timeout; within one batch of outstanding calls ids are distinct). -/
def wfTrace (s : RouterState) : List REvent → Prop
  | [] => True
  | e :: es =>
    (match e with
     | REvent.submit cid _ =>
       cid ∉ s.pending.map Prod.fst ∧ cid ∉ s.resolved.map Prod.fst
     | _ => True) ∧ wfTrace (rstep s e) es

/-- Spec invariant 4 as a state predicate: every outstanding correlation
id maps to at most one pending call, every future is recorded resolved
at most once, and no correlation id is simultaneously pending and
resolved. -/
def RInv (s : RouterState) : Prop :=
  (s.pending.map Prod.fst).Nodup ∧ (s.resolved.map Prod.fst).Nodup ∧
  ∀ cid, cid ∈ s.pending.map Prod.fst → cid ∉ s.resolved.map Prod.fst

/-! ## Helper lemmas -/

/-- Removing a key leaves no entry with that key behind. -/
theorem findEntry_removeKey (k : List Nat) (es : List CacheEntry) :
    findEntry k (removeKey k es) = none := by
  unfold findEntry removeKey
  rw [List.find?_eq_none]
  intro e he
  have := (List.mem_filter.mp he).2
  simpa using this

/-- With fuel at least the list length, the eviction loop always reaches
`memory_used ≤ memory_budget` (the empty list uses no memory). -/
theorem evictLoop_le (b : Nat) (fuel : Nat) :
    ∀ es : List CacheEntry, es.length ≤ fuel →
      memUsed (evictLoop b fuel es) ≤ b := by
  induction fuel with
  | zero =>
    intro es h
    have : es = [] := List.eq_nil_of_length_eq_zero (Nat.le_zero.mp h)
    subst this
    simp [evictLoop, memUsed]
  | succ n ih =>
    intro es h
    show memUsed (if memUsed es ≤ b then es else evictLoop b n es.dropLast) ≤ b
    split
    · assumption
    · exact ih es.dropLast (by rw [List.length_dropLast]; omega)

/-- The eviction loop never evicts a head entry whose value alone fits
the budget: eviction proceeds from the least-recently-used end. -/
theorem evictLoop_cons (b : Nat) (fuel : Nat) :
    ∀ (e : CacheEntry) (tl : List CacheEntry), e.value.length ≤ b →
      ∃ tl', evictLoop b fuel (e :: tl) = e :: tl' := by
  induction fuel with
  | zero => intro e tl _; exact ⟨tl, rfl⟩
  | succ n ih =>
    intro e tl he
    show (∃ tl', (if memUsed (e :: tl) ≤ b then e :: tl
      else evictLoop b n (e :: tl).dropLast) = e :: tl')
    split
    · exact ⟨tl, rfl⟩
    · match tl with
      | [] =>
        exfalso
        have hm : memUsed [e] ≤ b := by simpa [memUsed] using he
        simp_all
      | t :: ts =>
        have hdrop : (e :: t :: ts).dropLast = e :: (t :: ts).dropLast := rfl
        rw [hdrop]
        exact ih e (t :: ts).dropLast he

/-- Reading back a big-endian 2-byte field recovers the encoded number
when it fits in 16 bits. -/
theorem readBE16_be16 (n : Nat) (rest : List Nat) (h : n < 65536) :
    readBE16 (be16 n ++ rest) = some (n, rest) := by
  simp [be16, readBE16]
  omega

/-- Reading back a big-endian 4-byte field recovers the encoded number
when it fits in 32 bits. -/
theorem readBE32_be32 (n : Nat) (rest : List Nat) (h : n < 4294967296) :
    readBE32 (be32 n ++ rest) = some (n, rest) := by
  simp [be32, readBE32]
  omega

/-- Reading back a big-endian 4-byte field at the end of the stream. -/
theorem readBE32_full (n : Nat) (h : n < 4294967296) :
    readBE32 (be32 n) = some (n, []) := by
  simpa using readBE32_be32 n [] h

/-- Reading exactly the bytes that were appended returns them. -/
theorem readBytes_exact (xs rest : List Nat) :
    readBytes xs.length (xs ++ rest) = some (xs, rest) := by
  simp [readBytes, List.take_left, List.drop_left]

/-- Reading zero bytes consumes nothing. -/
theorem readBytes_zero (bs : List Nat) : readBytes 0 bs = some ([], bs) := by
  simp [readBytes]

/-- In a pair list whose keys are distinct, a key determines its
associated value. -/
theorem nodup_keys_eq {l : List (Nat × Nat)} (h : (l.map Prod.fst).Nodup)
    {c d d' : Nat} (h1 : (c, d) ∈ l) (h2 : (c, d') ∈ l) : d = d' := by
  induction l with
  | nil => simp at h1
  | cons p ps ih =>
    simp only [List.map_cons, List.nodup_cons] at h
    rcases List.mem_cons.mp h1 with h1 | h1 <;>
      rcases List.mem_cons.mp h2 with h2 | h2
    · have := h1.trans h2.symm
      exact ((Prod.mk.injEq _ _ _ _).mp this).2
    · exfalso
      have hc : c ∉ ps.map Prod.fst := by rw [← h1] at h; simpa using h.1
      exact hc (List.mem_map_of_mem Prod.fst h2)
    · exfalso
      have hc : c ∉ ps.map Prod.fst := by rw [← h2] at h; simpa using h.1
      exact hc (List.mem_map_of_mem Prod.fst h1)
    · exact ih h.2 h1 h2

/-- Each router step preserves the correlation-id invariant, provided a
submitted correlation id is fresh. -/
theorem rstep_inv {s : RouterState} (hs : RInv s) (e : REvent)
    (he : match e with
      | REvent.submit cid _ =>
        cid ∉ s.pending.map Prod.fst ∧ cid ∉ s.resolved.map Prod.fst
      | _ => True) : RInv (rstep s e) := by
  obtain ⟨hp, hr, hd⟩ := hs
  cases e with
  | submit cid d =>
    obtain ⟨he1, he2⟩ := he
    simp only [rstep, RInv, List.map_cons, List.nodup_cons]
    refine ⟨⟨he1, hp⟩, hr, ?_⟩
    intro x hx
    rcases List.mem_cons.mp hx with h | h
    · subst h; exact he2
    · exact hd x h
  | deliver cid st =>
    by_cases hc : cid ∈ s.pending.map Prod.fst
    · simp only [rstep, if_pos hc, RInv, List.map_cons, List.nodup_cons]
      refine ⟨?_, ⟨hd cid hc, hr⟩, ?_⟩
      · exact List.Nodup.sublist (List.Sublist.map _ (List.filter_sublist _)) hp
      · intro x hx
        obtain ⟨⟨p1, p2⟩, hpf, hpx⟩ := List.mem_map.mp hx
        subst hpx
        have hpm := List.mem_filter.mp hpf
        have hne : p1 ≠ cid := by simpa using hpm.2
        simp only [List.mem_cons, not_or]
        exact ⟨hne, hd p1 (List.mem_map_of_mem Prod.fst hpm.1)⟩
    · simp only [rstep, if_neg hc]
      exact ⟨hp, hr, hd⟩
  | elapse now =>
    simp only [rstep, RInv, List.map_append, List.map_map]
    refine ⟨?_, ?_, ?_⟩
    · exact List.Nodup.sublist (List.Sublist.map _ (List.filter_sublist _)) hp
    · rw [List.nodup_append]
      refine ⟨?_, hr, ?_⟩
      · have hsub : ((s.pending.filter fun p => decide (p.2 ≤ now)).map
            (Prod.fst ∘ fun p => (p.1, Status.Timeout))).Nodup := by
          simpa using List.Nodup.sublist
            (List.Sublist.map Prod.fst (List.filter_sublist _)) hp
        simpa using hsub
      · intro x hx
        obtain ⟨⟨p1, p2⟩, hpf, hpx⟩ := List.mem_map.mp hx
        have hpm := List.mem_filter.mp hpf
        have hpx2 : p1 = x := hpx
        subst hpx2
        exact hd p1 (List.mem_map_of_mem Prod.fst hpm.1)
    · intro x hx hxr
      obtain ⟨⟨p1, p2⟩, hpf, hpx⟩ := List.mem_map.mp hx
      subst hpx
      have hpm := List.mem_filter.mp hpf
      have hnow : now < p2 := by simpa using hpm.2
      rcases List.mem_append.mp hxr with hxr | hxr
      · obtain ⟨⟨q1, q2⟩, hqf, hqx⟩ := List.mem_map.mp hxr
        have hqx2 : q1 = p1 := hqx
        subst hqx2
        have hqm := List.mem_filter.mp hqf
        have hq : q2 ≤ now := by simpa using hqm.2
        have : p2 = q2 := nodup_keys_eq hp hpm.1 hqm.1
        omega
      · exact hd p1 (List.mem_map_of_mem Prod.fst hpm.1) hxr

/-- Running a well-formed trace preserves the correlation-id invariant. -/
theorem wfTrace_run_inv : ∀ (es : List REvent) (s : RouterState),
    RInv s → wfTrace s es → RInv (rrun s es) := by
  intro es
  induction es with
  | nil => intro s h _; exact h
  | cons e es ih =>
    intro s h hwf
    exact ih (rstep s e) (rstep_inv h e hwf.1) hwf.2

/-- The initial router state satisfies the correlation-id invariant. -/
theorem rinv_rinit : RInv rinit := by
  refine ⟨List.nodup_nil, List.nodup_nil, ?_⟩
  intro cid h
  simp [rinit] at h

/-! ## Claim theorems -/

/-- Claim C1: on successful startup the program starts the runtime and writes
exactly one stdout line, `"kvcache: online with N threads."` with `N`
the runtime's core count, performs no other operation, and the run
completes gracefully (status 0 from the runtime). -/
theorem c1_startup_writes_one_line (rt : Runtime) :
    app_run (StartupOutcome.success rt) appBody =
      (0, ["kvcache: online with " ++ toString rt.smpCount ++ " threads."]) :=
  rfl

/-- Claim C2 (code bug): the spec requires a non-zero process exit code when
startup fails, but `main` discards the status returned by `app.run` and
falls off its end, so the process exits `0` even though the runtime
reported failure with status `1`. -/
theorem c2_startup_failure_still_exits_zero :
    main_model StartupOutcome.failure = (0, []) ∧
      (app_run StartupOutcome.failure appBody).1 = 1 :=
  ⟨rfl, rfl⟩

/-- Claim C10: the callback passed to `app.run` returns an already-resolved
future, writes exactly one stdout line, and does nothing else. -/
theorem c10_app_body_ready (rt : Runtime) :
    (appBody rt).2 = FutureU.ready ∧ (appBody rt).1.length = 1 :=
  ⟨rfl, rfl⟩

/-- Claim C7: routing is deterministic and stable within one run — any two
evaluations of `stable_hash(key) mod shard_count` under the same
process-lifetime configuration give the same shard id, whenever they
happen. -/
theorem c7_routing_stable (cfg : Config) (k : List Nat) (t1 t2 : Nat) :
    routeAt cfg k t1 = routeAt cfg k t2 :=
  rfl

/-- Claim C5: with a single shard whose budget holds exactly two one-byte
values, `PUT(a,1)`, `PUT(b,2)`, `PUT(c,3)` evicts exactly the
least-recently-used entry `a`, after which `GET(a)` is `NotFound`,
`GET(b)` returns `2` and `GET(c)` returns `3`. -/
theorem c5_lru_eviction_scenario :
    let s0 : Shard := { entries := [], budget := 2 }
    let s1 := (handle_put s0 [0] [1] 0).2
    let s2 := (handle_put s1 [1] [2] 0).2
    let s3 := (handle_put s2 [2] [3] 0).2
    let g1 := handle_get s3 [0]
    let g2 := handle_get g1.2 [1]
    let g3 := handle_get g2.2 [2]
    s3.entries = [{ key := [2], value := [3], ttl := 0 },
      { key := [1], value := [2], ttl := 0 }] ∧
    g1.1 = none ∧ g2.1 = some [2] ∧ g3.1 = some [3] := by
  decide

/-- Claim C6: `DELETE` is idempotent — after deleting a key, a second delete
of the same key succeeds with `NotFound` and leaves the shard state
exactly as the first delete left it (so deleting an absent key is not
an error and mutates nothing). -/
theorem c6_delete_idempotent (s : Shard) (k : List Nat) :
    (handle_delete (handle_delete s k).2 k).1 = Status.NotFound ∧
    (handle_delete (handle_delete s k).2 k).2 = (handle_delete s k).2 := by
  unfold handle_delete
  split
  · simp [findEntry_removeKey]
  · exact ⟨rfl, rfl⟩

/-- Claim C3: the shard memory invariant — if `memory_used ≤ memory_budget`
held before a PUT, it holds immediately after the PUT completes (the
eviction loop restores it after an insert; a rejected oversized value
leaves the shard untouched). -/
theorem c3_put_respects_budget (s : Shard) (k v : List Nat) (ttl : Nat)
    (h : memUsed s.entries ≤ s.budget) :
    memUsed (handle_put s k v ttl).2.entries ≤ (handle_put s k v ttl).2.budget := by
  unfold handle_put
  split
  · exact h
  · exact evictLoop_le s.budget _ _ (Nat.le_refl _)

/-- Witness for claim C3 at a concrete shard: budget 1, one cached one-byte
value, then a PUT of another one-byte value under a fresh key. -/
theorem c3_put_respects_budget_witness :
    memUsed (Shard.mk [{ key := [0], value := [5], ttl := 0 }] 1).entries ≤
      (Shard.mk [{ key := [0], value := [5], ttl := 0 }] 1).budget ∧
    memUsed ((handle_put (Shard.mk [{ key := [0], value := [5], ttl := 0 }] 1)
        [1] [6] 0).2).entries ≤
      ((handle_put (Shard.mk [{ key := [0], value := [5], ttl := 0 }] 1)
        [1] [6] 0).2).budget :=
  ⟨by decide,
    c3_put_respects_budget (Shard.mk [{ key := [0], value := [5], ttl := 0 }] 1)
      [1] [6] 0 (by decide)⟩

/-- Counterexample for claim C4 as stated: on a shard whose budget is 0,
`PUT([0], [1])` is rejected with `ValueTooLarge`, so the immediately
following `GET([0])` does not return `[1]` although no eviction, TTL
expiry or `DELETE` intervened. -/
theorem c4_counterexample :
    (handle_put (Shard.mk [] 0) [0] [1] 0).1 = Status.ValueTooLarge ∧
    (handle_get (handle_put (Shard.mk [] 0) [0] [1] 0).2 [0]).1 ≠ some [1] := by
  decide

/-- Claim C4 (amended): a PUT of a value that fits the shard budget, immediately
followed by a GET of the same key with nothing in between, returns that
value, and the hit moves the entry to the most-recent position (the head
of the recency list). -/
theorem c4_put_then_get (s : Shard) (k v : List Nat) (ttl : Nat)
    (h : v.length ≤ s.budget) :
    (handle_get (handle_put s k v ttl).2 k).1 = some v ∧
    ∃ tl, (handle_get (handle_put s k v ttl).2 k).2.entries =
      { key := k, value := v, ttl := ttl } :: tl := by
  have hne : ¬ s.budget < v.length := by omega
  simp only [handle_put]
  rw [if_neg hne]
  obtain ⟨tl', htl'⟩ := evictLoop_cons s.budget
    (({ key := k, value := v, ttl := ttl } : CacheEntry) ::
      removeKey k s.entries).length
    { key := k, value := v, ttl := ttl } (removeKey k s.entries) h
  simp only [htl']
  constructor
  · simp [handle_get, findEntry]
  · exact ⟨removeKey k tl', by simp [handle_get, findEntry, removeKey]⟩

/-- Witness for claim C4: PUT then GET of key `[3]` with value `[9]` on
an empty shard of budget 1. -/
theorem c4_put_then_get_witness :
    ([9] : List Nat).length ≤ (Shard.mk [] 1).budget ∧
    ((handle_get (handle_put (Shard.mk [] 1) [3] [9] 0).2 [3]).1 = some [9] ∧
     ∃ tl, (handle_get (handle_put (Shard.mk [] 1) [3] [9] 0).2 [3]).2.entries =
       { key := [3], value := [9], ttl := 0 } :: tl) :=
  ⟨by decide, c4_put_then_get (Shard.mk [] 1) [3] [9] 0 (by decide)⟩

/-- Claim C8: encoding a well-formed `Request` (key below 2^16 bytes,
value below 2^32 bytes, 32-bit ttl, value empty unless PUT) into the
wire frame and decoding the frame reproduces the same request. -/
theorem c8_frame_roundtrip (r : Request) (hk : r.key.length < 65536)
    (hv : r.value.length < 4294967296) (ht : r.ttl < 4294967296)
    (hval : r.op ≠ Opcode.PUT → r.value = []) :
    decodeRequest (encodeRequest r) = some r := by
  obtain ⟨op, key, val, ttl⟩ := r
  simp only at hk hv ht hval
  cases op with
  | PUT =>
    simp [encodeRequest, decodeRequest, opcodeByte, byteOpcode, List.append_assoc,
      readBE16_be16 _ _ hk, readBytes_exact, readBE32_be32 _ _ hv, readBE32_full _ ht]
  | GET =>
    have hv0 : val = [] := hval (by simp)
    subst hv0
    simp [encodeRequest, decodeRequest, opcodeByte, byteOpcode, List.append_assoc,
      readBE16_be16 _ _ hk, readBytes_exact, readBytes_zero,
      readBE32_be32 0 _ (by omega), readBE32_full _ ht]
  | DELETE =>
    have hv0 : val = [] := hval (by simp)
    subst hv0
    simp [encodeRequest, decodeRequest, opcodeByte, byteOpcode, List.append_assoc,
      readBE16_be16 _ _ hk, readBytes_exact, readBytes_zero,
      readBE32_be32 0 _ (by omega), readBE32_full _ ht]

/-- Witness for claim C8: a concrete PUT request round-trips through the
wire frame. -/
theorem c8_frame_roundtrip_witness :
    (Request.mk Opcode.PUT [7, 8] [9] 300).key.length < 65536 ∧
    (Request.mk Opcode.PUT [7, 8] [9] 300).value.length < 4294967296 ∧
    (Request.mk Opcode.PUT [7, 8] [9] 300).ttl < 4294967296 ∧
    ((Request.mk Opcode.PUT [7, 8] [9] 300).op ≠ Opcode.PUT →
      (Request.mk Opcode.PUT [7, 8] [9] 300).value = []) ∧
    decodeRequest (encodeRequest (Request.mk Opcode.PUT [7, 8] [9] 300)) =
      some (Request.mk Opcode.PUT [7, 8] [9] 300) :=
  ⟨by decide, by decide, by decide, by decide,
    c8_frame_roundtrip (Request.mk Opcode.PUT [7, 8] [9] 300)
      (by decide) (by decide) (by decide) (by decide)⟩

/-- Claim C9: along any router trace whose submissions use fresh
correlation ids, every future is resolved at most once (no correlation
id is recorded resolved twice); a response arriving for an
already-resolved correlation id is discarded with no observable effect;
and when a pending call's deadline has elapsed the deadline check
resolves exactly that future with `Timeout` and removes the pending
call. -/
theorem c9_future_resolved_once (es : List REvent) (hwf : wfTrace rinit es) :
    ((rrun rinit es).resolved.map Prod.fst).Nodup ∧
    (∀ cid st, cid ∈ (rrun rinit es).resolved.map Prod.fst →
      rstep (rrun rinit es) (REvent.deliver cid st) = rrun rinit es) ∧
    (∀ cid d now, (cid, d) ∈ (rrun rinit es).pending → d ≤ now →
      (cid, Status.Timeout) ∈ (rstep (rrun rinit es) (REvent.elapse now)).resolved ∧
      cid ∉ (rstep (rrun rinit es) (REvent.elapse now)).pending.map Prod.fst) := by
  obtain ⟨hp, hr, hd⟩ := wfTrace_run_inv es rinit rinv_rinit hwf
  refine ⟨hr, ?_, ?_⟩
  · intro cid st hres
    have hnp : cid ∉ (rrun rinit es).pending.map Prod.fst := fun hc => hd cid hc hres
    simp only [rstep, if_neg hnp]
  · intro cid d now hmem hle
    constructor
    · simp only [rstep]
      apply List.mem_append_left
      exact List.mem_map.mpr ⟨(cid, d),
        List.mem_filter.mpr ⟨hmem, by simpa using hle⟩, rfl⟩
    · simp only [rstep]
      intro hc
      obtain ⟨⟨q1, q2⟩, hqf, hqx⟩ := List.mem_map.mp hc
      have hqx2 : q1 = cid := hqx
      subst hqx2
      have hqm := List.mem_filter.mp hqf
      have hq : now < q2 := by simpa using hqm.2
      have : d = q2 := nodup_keys_eq hp hmem hqm.1
      omega

/-- Witness for claim C9: a request submitted with correlation id 7 and
deadline 5, timed out at time 9, whose response then arrives late. -/
theorem c9_future_resolved_once_witness :
    wfTrace rinit [REvent.submit 7 5, REvent.elapse 9, REvent.deliver 7 Status.Ok] ∧
    (((rrun rinit [REvent.submit 7 5, REvent.elapse 9,
        REvent.deliver 7 Status.Ok]).resolved.map Prod.fst).Nodup ∧
     (∀ cid st, cid ∈ (rrun rinit [REvent.submit 7 5, REvent.elapse 9,
          REvent.deliver 7 Status.Ok]).resolved.map Prod.fst →
        rstep (rrun rinit [REvent.submit 7 5, REvent.elapse 9,
          REvent.deliver 7 Status.Ok]) (REvent.deliver cid st) =
        rrun rinit [REvent.submit 7 5, REvent.elapse 9,
          REvent.deliver 7 Status.Ok]) ∧
     (∀ cid d now, (cid, d) ∈ (rrun rinit [REvent.submit 7 5, REvent.elapse 9,
          REvent.deliver 7 Status.Ok]).pending → d ≤ now →
        (cid, Status.Timeout) ∈
          (rstep (rrun rinit [REvent.submit 7 5, REvent.elapse 9,
            REvent.deliver 7 Status.Ok]) (REvent.elapse now)).resolved ∧
        cid ∉ (rstep (rrun rinit [REvent.submit 7 5, REvent.elapse 9,
          REvent.deliver 7 Status.Ok])
            (REvent.elapse now)).pending.map Prod.fst)) :=
  ⟨by simp [wfTrace, rstep, rinit],
   c9_future_resolved_once [REvent.submit 7 5, REvent.elapse 9,
     REvent.deliver 7 Status.Ok] (by simp [wfTrace, rstep, rinit])⟩

end Kvcache
